import Mathlib

/-!
Shallow embedding of the extension resolution and activation-trigger engine of
src/vs/workbench/node/pluginHostMain.ts: the descriptor merge performed by
PluginHostMain.scanPlugins, the error handling of PluginHostMain.readPlugins,
the eager-activation logic of PluginHostMain.handleEagerPlugins and
PluginHostMain.handleWorkspaceContainsEagerPlugins, and the process.exit patch
performed at module load.
-/

namespace PluginHostMain

/-- Severity of a collected message (vs/base/common/severity). -/
inductive Severity where
  | error
  | warning
  | info
deriving DecidableEq, Repr

/-- A message recorded through the PluginsMessageCollector: collector.error,
collector.warn and collector.info each append one entry; every call site in
pluginHostMain.ts passes the empty string as the source argument. -/
structure IMessage where
  severity : Severity
  source : String
  message : String
deriving DecidableEq, Repr

/-- The fields of IPluginDescription that pluginHostMain.ts reads: the id used
as the registry key, the extensionFolderPath used in diagnostics, and the
activationEvents array, which the code guards with a falsy check before
iterating, hence modelled as optional. -/
structure IPluginDescription where
  id : String
  extensionFolderPath : String
  activationEvents : Option (List String)
deriving DecidableEq, Repr

/-- Lookup resultingPluginsMap[i]: the JS object keyed by plugin id is
modelled as a list of descriptors whose ids act as the keys, in key insertion
order; lookup returns the entry holding key i. -/
def mapLookup (m : List IPluginDescription) (i : String) : Option IPluginDescription :=
  m.find? (fun q => q.id == i)

/-- resultingPluginsMap.hasOwnProperty(i). -/
def hasKey (m : List IPluginDescription) (i : String) : Bool :=
  (mapLookup m i).isSome

/-- Assignment resultingPluginsMap[p.id] = p: a JS object keeps the original
position of an existing key on re-assignment and appends a new key at the end
of the insertion order. -/
def insertPlugin (m : List IPluginDescription) (p : IPluginDescription) : List IPluginDescription :=
  if m.any (fun q => q.id == p.id) then
    m.map (fun q => if q.id == p.id then p else q)
  else
    m ++ [p]

/-- The message text of the overwrite warning at lines 152 and 159 of
pluginHostMain.ts. -/
def overwriteMessage (m : List IPluginDescription) (p : IPluginDescription) : String :=
  "Overwriting extension " ++ ((mapLookup m p.id).map (fun q => q.extensionFolderPath)).getD ""
    ++ " with " ++ p.extensionFolderPath

/-- One iteration of the userPlugins.forEach loop (lines 150-155): warn when
the id is already a key of the map, then assign. -/
def userStep (acc : List IPluginDescription × List IMessage) (p : IPluginDescription) :
    List IPluginDescription × List IMessage :=
  let msgs := if hasKey acc.1 p.id then acc.2 ++ [⟨Severity.warning, "", overwriteMessage acc.1 p⟩] else acc.2
  (insertPlugin acc.1 p, msgs)

/-- One iteration of the extensionDevPlugins.forEach loop (lines 156-162):
always record an info message, then warn when the id is already a key of the
map, then assign. -/
def devStep (acc : List IPluginDescription × List IMessage) (p : IPluginDescription) :
    List IPluginDescription × List IMessage :=
  let msgs := acc.2 ++ [⟨Severity.info, "", "Loading development extension at " ++ p.extensionFolderPath⟩]
  let msgs2 := if hasKey acc.1 p.id then msgs ++ [⟨Severity.warning, "", overwriteMessage acc.1 p⟩] else msgs
  (insertPlugin acc.1 p, msgs2)

/-- The merge body of PluginHostMain.scanPlugins (lines 146-164): insert every
builtin descriptor, then every user descriptor with an overwrite warning, then
every development descriptor with an info message and an overwrite warning.
The returned list stands for Object.keys(resultingPluginsMap).map(...); it is
kept in key insertion order (no property stated below depends on the
enumeration order of the keys). -/
def scanPluginsMerge (builtinPlugins userPlugins extensionDevPlugins : List IPluginDescription) :
    List IPluginDescription × List IMessage :=
  let m1 := builtinPlugins.foldl insertPlugin []
  let acc2 := userPlugins.foldl userStep (m1, [])
  extensionDevPlugins.foldl devStep acc2

/-- Outcome of one asynchronous PluginScanner scan. The scanner itself is
external (vs/workbench/node/extensionPoints): a settled scan either resolved
with a descriptor list or rejected with an error. -/
abbrev ScanResult := Except String (List IPluginDescription)

/-- TPromise.join on the three scan promises (line 141): the joined promise
resolves with all three lists when all three resolve, and rejects as soon as
any of them rejects. -/
def join3 (b u d : ScanResult) :
    Except String (List IPluginDescription × List IPluginDescription × List IPluginDescription) := do
  let bs ← b
  let us ← u
  let ds ← d
  pure (bs, us, ds)

/-- PluginHostMain.scanPlugins (lines 135-166) applied to already-settled scan
outcomes: join the three sources, then merge. -/
def scanPlugins (b u d : ScanResult) : Except String (List IPluginDescription × List IMessage) :=
  (join3 b u d).map (fun t => scanPluginsMerge t.1 t.2.1 t.2.2)

/-- The then-chain of PluginHostMain.readPlugins (lines 121-130): a rejection
of the joined scanPlugins promise is caught, collector.error records one
diagnostic, and the empty list is registered in place of the whole merged
result; otherwise the merged list and the collected messages are registered.
Returns the registered registry contents together with the collected
messages. -/
def readPlugins (b u d : ScanResult) : List IPluginDescription × List IMessage :=
  match scanPlugins b u d with
  | Except.ok r => r
  | Except.error e => ([], [⟨Severity.error, "", e⟩])

/-- The part of the IWorkspace value that handleWorkspaceContainsEagerPlugins
reads: the optional resource, collapsed to its fsPath string. -/
structure Workspace where
  resource : Option String
deriving DecidableEq, Repr

/-- Modelled from the spec: paths.join of vs/base/common/paths is not part of
this excerpt; per the spec, joining the workspace root with an empty relative
path resolves to the root itself. -/
def joinPath (root name : String) : String :=
  if name == "" then root else root ++ "/" ++ name

/-- The regex test at line 195: e matches the anchored pattern exactly when
the literal prefix string starts e. -/
def isWorkspaceContainsEvent (e : String) : Bool :=
  "workspaceContains:".data.isPrefixOf e.data

/-- activationEvents[i].substr of the literal prefix length, line 196. -/
def eventFileName (e : String) : String :=
  e.drop "workspaceContains:".length

/-- Assignment desiredFilesMap[fileName] = true: the JS object acts as a set
of keys; a key already present keeps its position, a new key is appended. -/
def setInsert (acc : List String) (n : String) : List String :=
  if acc.contains n then acc else acc ++ [n]

/-- The per-descriptor body of the forEach at lines 188-200: skip a falsy
activationEvents, otherwise record the suffix of every matching event. -/
def collectFromDescription (acc : List String) (desc : IPluginDescription) : List String :=
  match desc.activationEvents with
  | none => acc
  | some evs =>
    evs.foldl (fun a e => if isWorkspaceContainsEvent e then setInsert a (eventFileName e) else a) acc

/-- Object.keys(desiredFilesMap) after the forEach at lines 188-200, in key
insertion order (no property stated below depends on the enumeration order of
the keys). -/
def collectDesiredFiles (registry : List IPluginDescription) : List String :=
  registry.foldl collectFromDescription []

/-- What a pluginService.activateByEvent call settles to: the external plugin
service either resolves or rejects with an error. -/
abbrev Activate := String → Except String Unit

/-- Observable effects of the eager-activation phase: the paths probed through
pfs.fileExistsWithResult, the events passed to pluginService.activateByEvent,
and the rejection reasons routed to console.error by the catch handlers. -/
structure ActivationOutcome where
  probedPaths : List String
  dispatched : List String
  loggedErrors : List String
deriving DecidableEq, Repr

/-- PluginHostMain.handleWorkspaceContainsEagerPlugins (lines 176-218): stop
when there is no workspace or no workspace resource; otherwise probe each
distinct collected name joined under the workspace root. The external
pfs.fileExistsWithResult resolves with the fileName argument when the joined
path exists and with a falsy value otherwise; the forEach at lines 207-216
skips falsy results (both the missing-file result and the empty string) and
dispatches the workspaceContains event for each remaining name, catching each
rejection with console.error. -/
def handleWorkspaceContainsEagerPlugins (fs : String → Bool) (activate : Activate)
    (workspace : Option Workspace) (registry : List IPluginDescription) : ActivationOutcome :=
  match workspace with
  | none => ⟨[], [], []⟩
  | some w =>
    match w.resource with
    | none => ⟨[], [], []⟩
    | some folderPath =>
      let names := collectDesiredFiles registry
      let results := names.map (fun fileName =>
        if fs (joinPath folderPath fileName) then some fileName else none)
      let events := results.filterMap (fun r =>
        match r with
        | none => none
        | some s => if s == "" then none else some ("workspaceContains:" ++ s))
      { probedPaths := names.map (fun fileName => joinPath folderPath fileName),
        dispatched := events,
        loggedErrors := events.filterMap (fun e =>
          match activate e with
          | Except.ok _ => none
          | Except.error err => some err) }

/-- PluginHostMain.handleEagerPlugins (lines 169-174): dispatch the universal
event with its rejection caught by console.error, then handle the
workspaceContains triggers. -/
def handleEagerPlugins (fs : String → Bool) (activate : Activate)
    (workspace : Option Workspace) (registry : List IPluginDescription) : ActivationOutcome :=
  let starLog : List String := match activate "*" with
    | Except.ok _ => []
    | Except.error err => [err]
  let rest := handleWorkspaceContainsEagerPlugins fs activate workspace registry
  ⟨rest.probedPaths, "*" :: rest.dispatched, starLog ++ rest.loggedErrors⟩

/-- PluginHostMain.start, i.e. the readPlugins then-chain (lines 113-133) up
to and including handleEagerPlugins, with handlePluginTests a no-op (no
pluginTestsPath configured). -/
def start (b u d : ScanResult) (fs : String → Bool) (activate : Activate)
    (workspace : Option Workspace) : (List IPluginDescription × List IMessage) × ActivationOutcome :=
  let r := readPlugins b u d
  (r, handleEagerPlugins fs activate workspace r.1)

/-- Observable process state for the module-load patch at lines 58-65: whether
the native exit has run (and with which code) and the console warnings. -/
structure ProcessState where
  exited : Option (Option Int)
  warnings : List String
deriving DecidableEq, Repr

/-- The saved native process.exit (line 58). -/
def nativeExit (code : Option Int) (s : ProcessState) : ProcessState :=
  { s with exited := some code }

/-- The replacement installed over process.exit at lines 59-62: the function
is declared with no parameter, so any argument is ignored; it builds an Error
and passes its stack, whose first line carries this message, to
console.warn. -/
def patchedProcessExit (_code : Option Int) (s : ProcessState) : ProcessState :=
  { s with warnings := s.warnings ++ ["An extension called process.exit() and this was prevented."] }

/-- The exported exit function (lines 63-65), the only remaining reference to
the saved native exit after the patch. -/
def exit (code : Option Int) (s : ProcessState) : ProcessState :=
  nativeExit code s

/-- Number of collected messages carrying the given severity. -/
def severityCount (sev : Severity) (msgs : List IMessage) : Nat :=
  (msgs.filter (fun m => m.severity == sev)).length

theorem find?_map_replace (p : IPluginDescription) (i : String) (h : i ≠ p.id)
    (m : List IPluginDescription) :
    (m.map (fun q => if q.id == p.id then p else q)).find? (fun q => q.id == i) =
      m.find? (fun q => q.id == i) := by
  induction m with
  | nil => rfl
  | cons q rest ih =>
    by_cases hq : q.id = p.id
    · have h1 : (q.id == p.id) = true := beq_iff_eq.mpr hq
      have h2 : (p.id == i) = false := by
        simp only [beq_eq_false_iff_ne]
        exact fun hh => h hh.symm
      have h3 : (q.id == i) = false := by
        simp only [beq_eq_false_iff_ne, hq]
        exact fun hh => h hh.symm
      simp only [List.map_cons, h1, if_true]
      rw [List.find?_cons_of_neg _ (by simp [h2]), List.find?_cons_of_neg _ (by simp [h3])]
      exact ih
    · have h1 : (q.id == p.id) = false := by simp only [beq_eq_false_iff_ne]; exact hq
      simp only [List.map_cons, h1, if_false]
      by_cases hqi : q.id = i
      · rw [List.find?_cons_of_pos _ (by simp [hqi]), List.find?_cons_of_pos _ (by simp [hqi])]
        simp
      · rw [List.find?_cons_of_neg _ (by simp [hqi]), List.find?_cons_of_neg _ (by simp [hqi])]
        exact ih

theorem find?_map_replace_self (p : IPluginDescription) (m : List IPluginDescription)
    (hmem : ∃ q ∈ m, q.id = p.id) :
    (m.map (fun q => if q.id == p.id then p else q)).find? (fun q => q.id == p.id) = some p := by
  induction m with
  | nil => simp at hmem
  | cons q rest ih =>
    by_cases hq : q.id = p.id
    · have h1 : (q.id == p.id) = true := beq_iff_eq.mpr hq
      simp only [List.map_cons, h1, if_true]
      rw [List.find?_cons_of_pos _ (by simp)]
    · have h1 : (q.id == p.id) = false := by simp only [beq_eq_false_iff_ne]; exact hq
      simp only [List.map_cons, h1, if_false]
      rw [List.find?_cons_of_neg _ (by simp [h1])]
      apply ih
      rcases hmem with ⟨q₂, hq₂, hid⟩
      rcases List.mem_cons.mp hq₂ with rfl | hmem₂
      · exact absurd hid hq
      · exact ⟨q₂, hmem₂, hid⟩

theorem lookup_insertPlugin (m : List IPluginDescription) (p : IPluginDescription) (i : String) :
    mapLookup (insertPlugin m p) i = if i = p.id then some p else mapLookup m i := by
  unfold mapLookup insertPlugin
  by_cases hany : m.any (fun q => q.id == p.id) = true
  · rw [if_pos hany]
    rcases List.any_eq_true.mp hany with ⟨q, hq, hqid⟩
    by_cases hi : i = p.id
    · subst hi
      simp only [if_true]
      exact find?_map_replace_self p m ⟨q, hq, beq_iff_eq.mp hqid⟩
    · simp only [hi, if_false]
      exact find?_map_replace p i hi m
  · rw [if_neg hany, List.find?_append]
    by_cases hi : i = p.id
    · subst hi
      have hnone : m.find? (fun q => q.id == p.id) = none := by
        rw [List.find?_eq_none]
        intro x hx
        simp only [beq_iff_eq]
        intro hxi
        exact hany (List.any_eq_true.mpr ⟨x, hx, beq_iff_eq.mpr hxi⟩)
      simp [hnone, List.find?]
    · have hpnone : [p].find? (fun q => q.id == i) = none := by
        simp only [List.find?]
        have : (p.id == i) = false := by
          simp only [beq_eq_false_iff_ne]
          exact fun hh => hi hh.symm
        simp [this]
      simp [hpnone, Option.or_none, hi]

theorem hasKey_iff (m : List IPluginDescription) (i : String) :
    hasKey m i = true ↔ ∃ q ∈ m, q.id = i := by
  unfold hasKey mapLookup
  simp [List.find?_isSome]

theorem hasKey_iff_mem_ids (m : List IPluginDescription) (i : String) :
    hasKey m i = true ↔ i ∈ m.map (fun q => q.id) := by
  rw [hasKey_iff]
  simp [List.mem_map]

theorem hasKey_insertPlugin (m : List IPluginDescription) (p : IPluginDescription) (i : String) :
    hasKey (insertPlugin m p) i = true ↔ i = p.id ∨ hasKey m i = true := by
  unfold hasKey
  rw [lookup_insertPlugin]
  by_cases hi : i = p.id <;> simp [hi]

theorem lookup_foldl_insertPlugin (ps : List IPluginDescription)
    (init : List IPluginDescription) (i : String) :
    mapLookup (ps.foldl insertPlugin init) i =
      (ps.reverse.find? (fun p => p.id == i)).or (mapLookup init i) := by
  induction ps generalizing init with
  | nil => simp
  | cons p rest ih =>
    rw [List.foldl_cons, ih, List.reverse_cons, List.find?_append, Option.or_assoc,
      lookup_insertPlugin]
    by_cases hi : i = p.id
    · have h1 : (p.id == i) = true := beq_iff_eq.mpr hi.symm
      simp [List.find?, h1, hi]
    · have h1 : (p.id == i) = false := by
        simp only [beq_eq_false_iff_ne]
        exact fun hh => hi hh.symm
      simp [List.find?, h1, hi]

theorem find?_reverse_nodup (l : List IPluginDescription) (i : String)
    (h : (l.map (fun q => q.id)).Nodup) :
    l.reverse.find? (fun p => p.id == i) = l.find? (fun p => p.id == i) := by
  induction l with
  | nil => rfl
  | cons p rest ih =>
    simp only [List.map_cons, List.nodup_cons] at h
    obtain ⟨hnotin, hrest⟩ := h
    rw [List.reverse_cons, List.find?_append, ih hrest]
    by_cases hi : p.id = i
    · have hnone : rest.find? (fun q => q.id == i) = none := by
        rw [List.find?_eq_none]
        intro x hx
        simp only [beq_iff_eq]
        intro hxi
        exact hnotin (List.mem_map.mpr ⟨x, hx, hxi.trans hi.symm⟩)
      have hpe : (p.id == i) = true := beq_iff_eq.mpr hi
      simp [List.find?_cons, hpe, hnone]
    · have hpe : (p.id == i) = false := by
        simp only [beq_eq_false_iff_ne]
        exact hi
      simp [List.find?_cons, hpe, Option.or_none]

theorem lookup_foldl_insertPlugin_nodup (ps : List IPluginDescription)
    (init : List IPluginDescription) (i : String) (h : (ps.map (fun q => q.id)).Nodup) :
    mapLookup (ps.foldl insertPlugin init) i =
      (ps.find? (fun p => p.id == i)).or (mapLookup init i) := by
  rw [lookup_foldl_insertPlugin, find?_reverse_nodup _ _ h]

theorem hasKey_foldl_insertPlugin (ps : List IPluginDescription)
    (init : List IPluginDescription) (i : String) :
    hasKey (ps.foldl insertPlugin init) i = true ↔
      (∃ p ∈ ps, p.id = i) ∨ hasKey init i = true := by
  unfold hasKey
  rw [lookup_foldl_insertPlugin]
  cases hfind : ps.reverse.find? (fun p => p.id == i) with
  | none =>
    simp only [Option.none_or]
    rw [List.find?_eq_none] at hfind
    simp only [beq_iff_eq] at hfind
    constructor
    · exact Or.inr
    · rintro (⟨p, hp, rfl⟩ | hk)
      · exact absurd rfl (hfind p (List.mem_reverse.mpr hp))
      · exact hk
  | some q =>
    have hq : q ∈ ps.reverse := List.mem_of_find?_eq_some hfind
    have hqi := List.find?_some hfind
    simp only [Option.or_some, Option.isSome_some, true_iff]
    exact Or.inl ⟨q, List.mem_reverse.mp hq, beq_iff_eq.mp hqi⟩

theorem ids_insertPlugin (m : List IPluginDescription) (p : IPluginDescription) :
    (insertPlugin m p).map (fun q => q.id) =
      if p.id ∈ m.map (fun q => q.id) then m.map (fun q => q.id)
      else m.map (fun q => q.id) ++ [p.id] := by
  unfold insertPlugin
  by_cases hmem : p.id ∈ m.map (fun q => q.id)
  · rw [if_pos hmem]
    have hany : m.any (fun q => q.id == p.id) = true := by
      rcases List.mem_map.mp hmem with ⟨q, hq, hid⟩
      exact List.any_eq_true.mpr ⟨q, hq, beq_iff_eq.mpr hid⟩
    rw [if_pos hany, List.map_map]
    apply List.map_congr_left
    intro q _
    by_cases hq : q.id = p.id
    · simp [beq_iff_eq.mpr hq, hq]
    · simp [hq]
  · rw [if_neg hmem]
    have hnotany : ¬ m.any (fun q => q.id == p.id) = true := fun hh => hmem (by
      rcases List.any_eq_true.mp hh with ⟨q, hq, hid⟩
      exact List.mem_map.mpr ⟨q, hq, beq_iff_eq.mp hid⟩)
    rw [if_neg hnotany, List.map_append]
    rfl

theorem nodup_ids_insertPlugin (m : List IPluginDescription) (p : IPluginDescription)
    (h : (m.map (fun q => q.id)).Nodup) :
    ((insertPlugin m p).map (fun q => q.id)).Nodup := by
  rw [ids_insertPlugin]
  by_cases hmem : p.id ∈ m.map (fun q => q.id)
  · rwa [if_pos hmem]
  · rw [if_neg hmem]
    simp [List.nodup_append, h, hmem]

theorem nodup_ids_foldl_insertPlugin (ps : List IPluginDescription)
    (init : List IPluginDescription) (h : (init.map (fun q => q.id)).Nodup) :
    ((ps.foldl insertPlugin init).map (fun q => q.id)).Nodup := by
  induction ps generalizing init with
  | nil => exact h
  | cons p rest ih => exact ih _ (nodup_ids_insertPlugin _ _ h)

theorem length_insertPlugin (m : List IPluginDescription) (p : IPluginDescription) :
    (insertPlugin m p).length ≤ m.length + 1 := by
  unfold insertPlugin
  split
  · rw [List.length_map]
    exact Nat.le_succ _
  · rw [List.length_append]
    simp

theorem length_foldl_insertPlugin (ps : List IPluginDescription)
    (init : List IPluginDescription) :
    (ps.foldl insertPlugin init).length ≤ init.length + ps.length := by
  induction ps generalizing init with
  | nil => simp
  | cons p rest ih =>
    have h1 := ih (insertPlugin init p)
    have h2 := length_insertPlugin init p
    simp only [List.foldl_cons, List.length_cons]
    omega

theorem userStep_eq (m : List IPluginDescription) (msgs : List IMessage) (p : IPluginDescription) :
    userStep (m, msgs) p =
      (insertPlugin m p,
        msgs ++ (if hasKey m p.id then [⟨Severity.warning, "", overwriteMessage m p⟩] else [])) := by
  unfold userStep
  by_cases h : hasKey m p.id = true
  · simp [h]
  · simp [h]

theorem devStep_eq (m : List IPluginDescription) (msgs : List IMessage) (p : IPluginDescription) :
    devStep (m, msgs) p =
      (insertPlugin m p,
        msgs ++ (⟨Severity.info, "", "Loading development extension at " ++ p.extensionFolderPath⟩ ::
          (if hasKey m p.id then [⟨Severity.warning, "", overwriteMessage m p⟩] else []))) := by
  unfold devStep
  by_cases h : hasKey m p.id = true
  · simp [h]
  · simp [h]

theorem foldl_step_fst {α β : Type} (step : α × List β → IPluginDescription → α × List β)
    (g : α → IPluginDescription → α) (h : α → IPluginDescription → List β)
    (hstep : ∀ m msgs p, step (m, msgs) p = (g m p, msgs ++ h m p))
    (ps : List IPluginDescription) (m : α) (msgs : List β) :
    (ps.foldl step (m, msgs)).1 = ps.foldl g m := by
  induction ps generalizing m msgs with
  | nil => rfl
  | cons p rest ih =>
    rw [List.foldl_cons, hstep, List.foldl_cons]
    exact ih _ _

theorem foldl_step_snd {α β : Type} (step : α × List β → IPluginDescription → α × List β)
    (g : α → IPluginDescription → α) (h : α → IPluginDescription → List β)
    (hstep : ∀ m msgs p, step (m, msgs) p = (g m p, msgs ++ h m p))
    (ps : List IPluginDescription) (m : α) (msgs : List β) :
    (ps.foldl step (m, msgs)).2 = msgs ++ (ps.foldl step (m, [])).2 := by
  induction ps generalizing m msgs with
  | nil => simp
  | cons p rest ih =>
    rw [List.foldl_cons, hstep, ih (g m p) (msgs ++ h m p), List.foldl_cons, hstep,
      List.nil_append, ih (g m p) (h m p), List.append_assoc]

theorem fst_foldl_userStep (ps : List IPluginDescription) (m : List IPluginDescription)
    (msgs : List IMessage) :
    (ps.foldl userStep (m, msgs)).1 = ps.foldl insertPlugin m :=
  foldl_step_fst userStep insertPlugin
    (fun m p => if hasKey m p.id then [⟨Severity.warning, "", overwriteMessage m p⟩] else [])
    userStep_eq ps m msgs

theorem fst_foldl_devStep (ps : List IPluginDescription) (m : List IPluginDescription)
    (msgs : List IMessage) :
    (ps.foldl devStep (m, msgs)).1 = ps.foldl insertPlugin m :=
  foldl_step_fst devStep insertPlugin
    (fun m p => ⟨Severity.info, "", "Loading development extension at " ++ p.extensionFolderPath⟩ ::
      (if hasKey m p.id then [⟨Severity.warning, "", overwriteMessage m p⟩] else []))
    devStep_eq ps m msgs

theorem snd_foldl_userStep (ps : List IPluginDescription) (m : List IPluginDescription)
    (msgs : List IMessage) :
    (ps.foldl userStep (m, msgs)).2 = msgs ++ (ps.foldl userStep (m, [])).2 :=
  foldl_step_snd userStep insertPlugin
    (fun m p => if hasKey m p.id then [⟨Severity.warning, "", overwriteMessage m p⟩] else [])
    userStep_eq ps m msgs

theorem snd_foldl_devStep (ps : List IPluginDescription) (m : List IPluginDescription)
    (msgs : List IMessage) :
    (ps.foldl devStep (m, msgs)).2 = msgs ++ (ps.foldl devStep (m, [])).2 :=
  foldl_step_snd devStep insertPlugin
    (fun m p => ⟨Severity.info, "", "Loading development extension at " ++ p.extensionFolderPath⟩ ::
      (if hasKey m p.id then [⟨Severity.warning, "", overwriteMessage m p⟩] else []))
    devStep_eq ps m msgs

theorem mapLookup_nil (i : String) : mapLookup [] i = none := rfl

theorem hasKey_nil (i : String) : hasKey [] i = false := rfl

theorem severityCount_append (sev : Severity) (a b : List IMessage) :
    severityCount sev (a ++ b) = severityCount sev a + severityCount sev b := by
  unfold severityCount
  rw [List.filter_append, List.length_append]

theorem severityCount_singleton (sev : Severity) (msg : IMessage) :
    severityCount sev [msg] = if msg.severity == sev then 1 else 0 := by
  unfold severityCount
  by_cases h : (msg.severity == sev) = true
  · simp [List.filter, h]
  · simp only [Bool.not_eq_true] at h
    simp [List.filter, h]

theorem fst_foldl_userStep_pair (ps : List IPluginDescription)
    (acc : List IPluginDescription × List IMessage) :
    (ps.foldl userStep acc).1 = ps.foldl insertPlugin acc.1 := by
  cases acc with
  | mk m msgs => exact fst_foldl_userStep ps m msgs

theorem snd_foldl_userStep_pair (ps : List IPluginDescription)
    (acc : List IPluginDescription × List IMessage) :
    (ps.foldl userStep acc).2 = acc.2 ++ (ps.foldl userStep (acc.1, [])).2 := by
  cases acc with
  | mk m msgs => exact snd_foldl_userStep ps m msgs

theorem fst_foldl_devStep_pair (ps : List IPluginDescription)
    (acc : List IPluginDescription × List IMessage) :
    (ps.foldl devStep acc).1 = ps.foldl insertPlugin acc.1 := by
  cases acc with
  | mk m msgs => exact fst_foldl_devStep ps m msgs

theorem snd_foldl_devStep_pair (ps : List IPluginDescription)
    (acc : List IPluginDescription × List IMessage) :
    (ps.foldl devStep acc).2 = acc.2 ++ (ps.foldl devStep (acc.1, [])).2 := by
  cases acc with
  | mk m msgs => exact snd_foldl_devStep ps m msgs

theorem scanPluginsMerge_fst (b u d : List IPluginDescription) :
    (scanPluginsMerge b u d).1 =
      d.foldl insertPlugin (u.foldl insertPlugin (b.foldl insertPlugin [])) := by
  unfold scanPluginsMerge
  rw [fst_foldl_devStep_pair, fst_foldl_userStep]

theorem scanPluginsMerge_snd (b u d : List IPluginDescription) :
    (scanPluginsMerge b u d).2 =
      (u.foldl userStep (b.foldl insertPlugin [], [])).2 ++
        (d.foldl devStep (u.foldl insertPlugin (b.foldl insertPlugin []), [])).2 := by
  unfold scanPluginsMerge
  rw [snd_foldl_devStep_pair, fst_foldl_userStep]

theorem warnCount_foldl_userStep (ps : List IPluginDescription) (m : List IPluginDescription)
    (h : (ps.map (fun q => q.id)).Nodup) :
    severityCount Severity.warning (ps.foldl userStep (m, [])).2 =
      (ps.filter (fun p => hasKey m p.id)).length := by
  induction ps generalizing m with
  | nil => rfl
  | cons p rest ih =>
    simp only [List.map_cons, List.nodup_cons] at h
    obtain ⟨hnotin, hrest⟩ := h
    rw [List.foldl_cons, userStep_eq, List.nil_append, snd_foldl_userStep,
      severityCount_append, ih _ hrest]
    have hfeq : rest.filter (fun q => hasKey (insertPlugin m p) q.id) =
        rest.filter (fun q => hasKey m q.id) := by
      apply List.filter_congr
      intro q hq
      have hne : q.id ≠ p.id := fun hh => hnotin (List.mem_map.mpr ⟨q, hq, hh⟩)
      rw [Bool.eq_iff_iff, hasKey_insertPlugin]
      simp [hne]
    rw [hfeq, List.filter_cons]
    by_cases hk : hasKey m p.id = true
    · simp [hk, severityCount_singleton]
      omega
    · simp only [Bool.not_eq_true] at hk
      simp [hk, severityCount]

theorem warnCount_foldl_devStep (ps : List IPluginDescription) (m : List IPluginDescription)
    (h : (ps.map (fun q => q.id)).Nodup) :
    severityCount Severity.warning (ps.foldl devStep (m, [])).2 =
      (ps.filter (fun p => hasKey m p.id)).length := by
  induction ps generalizing m with
  | nil => rfl
  | cons p rest ih =>
    simp only [List.map_cons, List.nodup_cons] at h
    obtain ⟨hnotin, hrest⟩ := h
    rw [List.foldl_cons, devStep_eq, List.nil_append, snd_foldl_devStep,
      severityCount_append, ih _ hrest]
    have hfeq : rest.filter (fun q => hasKey (insertPlugin m p) q.id) =
        rest.filter (fun q => hasKey m q.id) := by
      apply List.filter_congr
      intro q hq
      have hne : q.id ≠ p.id := fun hh => hnotin (List.mem_map.mpr ⟨q, hq, hh⟩)
      rw [Bool.eq_iff_iff, hasKey_insertPlugin]
      simp [hne]
    rw [hfeq, List.filter_cons]
    by_cases hk : hasKey m p.id = true
    · simp [hk, severityCount_append, severityCount_singleton, severityCount]
      omega
    · simp only [Bool.not_eq_true] at hk
      simp [hk, severityCount]

theorem hasKey_builtin_iff (b : List IPluginDescription) (i : String) :
    hasKey (b.foldl insertPlugin []) i = true ↔ i ∈ b.map (fun q => q.id) := by
  rw [hasKey_foldl_insertPlugin]
  simp [hasKey_nil, List.mem_map]

theorem hasKey_builtin_eq (b : List IPluginDescription) (i : String) :
    hasKey (b.foldl insertPlugin []) i = decide (i ∈ b.map (fun q => q.id)) := by
  by_cases hmem : i ∈ b.map (fun q => q.id)
  · rw [(hasKey_builtin_iff b i).mpr hmem, decide_eq_true hmem]
  · have hfalse : hasKey (b.foldl insertPlugin []) i = false := by
      cases hcase : hasKey (b.foldl insertPlugin []) i
      · rfl
      · exact absurd ((hasKey_builtin_iff b i).mp hcase) hmem
    rw [hfalse, decide_eq_false hmem]

theorem hasKey_user_iff (b u : List IPluginDescription) (i : String) :
    hasKey (u.foldl insertPlugin (b.foldl insertPlugin [])) i = true ↔
      i ∈ b.map (fun q => q.id) ++ u.map (fun q => q.id) := by
  rw [hasKey_foldl_insertPlugin, List.mem_append]
  constructor
  · rintro (⟨p, hp, rfl⟩ | hb2)
    · exact Or.inr (List.mem_map.mpr ⟨p, hp, rfl⟩)
    · exact Or.inl ((hasKey_builtin_iff b i).mp hb2)
  · rintro (hb2 | hu2)
    · exact Or.inr ((hasKey_builtin_iff b i).mpr hb2)
    · rcases List.mem_map.mp hu2 with ⟨p, hp, rfl⟩
      exact Or.inl ⟨p, hp, rfl⟩

theorem hasKey_user_eq (b u : List IPluginDescription) (i : String) :
    hasKey (u.foldl insertPlugin (b.foldl insertPlugin [])) i =
      decide (i ∈ b.map (fun q => q.id) ++ u.map (fun q => q.id)) := by
  by_cases hmem : i ∈ b.map (fun q => q.id) ++ u.map (fun q => q.id)
  · rw [(hasKey_user_iff b u i).mpr hmem, decide_eq_true hmem]
  · have hfalse : hasKey (u.foldl insertPlugin (b.foldl insertPlugin [])) i = false := by
      cases hcase : hasKey (u.foldl insertPlugin (b.foldl insertPlugin [])) i
      · rfl
      · exact absurd ((hasKey_user_iff b u i).mp hcase) hmem
    rw [hfalse, decide_eq_false hmem]

theorem find?_id_isSome_iff (l : List IPluginDescription) (i : String) :
    (l.find? (fun p => p.id == i)).isSome = true ↔ i ∈ l.map (fun q => q.id) := by
  rw [List.find?_isSome]
  simp [List.mem_map]

theorem find?_id_eq_none_iff (l : List IPluginDescription) (i : String) :
    l.find? (fun p => p.id == i) = none ↔ i ∉ l.map (fun q => q.id) := by
  rw [List.find?_eq_none]
  constructor
  · intro h hmem
    rcases List.mem_map.mp hmem with ⟨q, hq, hid⟩
    have h2 := h q hq
    simp only [beq_iff_eq] at h2
    exact h2 hid
  · intro h q hq
    simp only [beq_iff_eq]
    intro hid
    exact h (List.mem_map.mpr ⟨q, hq, hid⟩)

/-- C2: for every id that occurs in more than one of the three input lists (each
list declaring pairwise-distinct ids, the merge precondition stated by the spec),
the merged registry's entry for that id is the descriptor from the
highest-precedence source containing it (development over user-installed over
builtin), and exactly one warning diagnostic is recorded per overwrite: one for
each user-installed descriptor whose id is already a builtin id, plus one for
each development descriptor whose id is already a builtin or user-installed
id. -/
theorem C2_merge_precedence (b u d : List IPluginDescription)
    (hb : (b.map (fun q => q.id)).Nodup) (hu : (u.map (fun q => q.id)).Nodup)
    (hd : (d.map (fun q => q.id)).Nodup) (i : String)
    (_hmulti : (i ∈ b.map (fun q => q.id) ∧ i ∈ u.map (fun q => q.id)) ∨
      (i ∈ b.map (fun q => q.id) ∧ i ∈ d.map (fun q => q.id)) ∨
      (i ∈ u.map (fun q => q.id) ∧ i ∈ d.map (fun q => q.id))) :
    mapLookup (scanPluginsMerge b u d).1 i =
      (if i ∈ d.map (fun q => q.id) then d.find? (fun p => p.id == i)
       else if i ∈ u.map (fun q => q.id) then u.find? (fun p => p.id == i)
       else b.find? (fun p => p.id == i)) ∧
    severityCount Severity.warning (scanPluginsMerge b u d).2 =
      (u.filter (fun p => decide (p.id ∈ b.map (fun q => q.id)))).length +
        (d.filter (fun p => decide (p.id ∈ b.map (fun q => q.id) ++ u.map (fun q => q.id)))).length := by
  constructor
  · rw [scanPluginsMerge_fst,
      lookup_foldl_insertPlugin_nodup _ _ _ hd,
      lookup_foldl_insertPlugin_nodup _ _ _ hu,
      lookup_foldl_insertPlugin_nodup _ _ _ hb,
      mapLookup_nil, Option.or_none]
    by_cases hdm : i ∈ d.map (fun q => q.id)
    · rw [if_pos hdm]
      exact Option.or_of_isSome ((find?_id_isSome_iff d i).mpr hdm)
    · rw [if_neg hdm, (find?_id_eq_none_iff d i).mpr hdm, Option.none_or]
      by_cases hum : i ∈ u.map (fun q => q.id)
      · rw [if_pos hum]
        exact Option.or_of_isSome ((find?_id_isSome_iff u i).mpr hum)
      · rw [if_neg hum, (find?_id_eq_none_iff u i).mpr hum, Option.none_or]
  · rw [scanPluginsMerge_snd, severityCount_append,
      warnCount_foldl_userStep _ _ hu, warnCount_foldl_devStep _ _ hd]
    congr 1
    · congr 1
      apply List.filter_congr
      intro p _
      exact hasKey_builtin_eq b p.id
    · congr 1
      apply List.filter_congr
      intro p _
      exact hasKey_user_eq b u p.id

/-- Witness for C2: the id A occurs in both the builtin and the user-installed
list; the merged entry is the user-installed descriptor and exactly one warning
is recorded. -/
theorem C2_merge_precedence_witness :
    mapLookup (scanPluginsMerge [⟨"A", "/builtin/A", none⟩] [⟨"A", "/user/A", none⟩] []).1 "A" =
      some ⟨"A", "/user/A", none⟩ ∧
    severityCount Severity.warning
      (scanPluginsMerge [⟨"A", "/builtin/A", none⟩] [⟨"A", "/user/A", none⟩] []).2 = 1 := by
  have h := C2_merge_precedence [⟨"A", "/builtin/A", none⟩] [⟨"A", "/user/A", none⟩] []
    (by decide) (by decide) (by decide) "A" (Or.inl ⟨by decide, by decide⟩)
  constructor
  · rw [h.1]
    decide
  · rw [h.2]
    decide

/-- C3: the merged registry's id set equals the union of the three input id
sets, the registry holds exactly one descriptor per distinct id (its ids are
pairwise distinct), and its size is at most the sum of the three input
sizes. -/
theorem C3_merge_totality (b u d : List IPluginDescription) :
    (∀ i : String, i ∈ (scanPluginsMerge b u d).1.map (fun q => q.id) ↔
      (i ∈ b.map (fun q => q.id) ∨ i ∈ u.map (fun q => q.id) ∨ i ∈ d.map (fun q => q.id))) ∧
    ((scanPluginsMerge b u d).1.map (fun q => q.id)).Nodup ∧
    (scanPluginsMerge b u d).1.length ≤ b.length + u.length + d.length := by
  refine ⟨?_, ?_, ?_⟩
  · intro i
    rw [scanPluginsMerge_fst, ← hasKey_iff_mem_ids, hasKey_foldl_insertPlugin,
      hasKey_user_iff, List.mem_append]
    constructor
    · rintro (⟨p, hp, rfl⟩ | hb2 | hu2)
      · exact Or.inr (Or.inr (List.mem_map.mpr ⟨p, hp, rfl⟩))
      · exact Or.inl hb2
      · exact Or.inr (Or.inl hu2)
    · rintro (hb2 | hu2 | hd2)
      · exact Or.inr (Or.inl hb2)
      · exact Or.inr (Or.inr hu2)
      · rcases List.mem_map.mp hd2 with ⟨p, hp, rfl⟩
        exact Or.inl ⟨p, hp, rfl⟩
  · rw [scanPluginsMerge_fst]
    exact nodup_ids_foldl_insertPlugin _ _
      (nodup_ids_foldl_insertPlugin _ _
        (nodup_ids_foldl_insertPlugin _ _ (by simp)))
  · rw [scanPluginsMerge_fst]
    have h1 := length_foldl_insertPlugin d (u.foldl insertPlugin (b.foldl insertPlugin []))
    have h2 := length_foldl_insertPlugin u (b.foldl insertPlugin [])
    have h3 := length_foldl_insertPlugin b ([] : List IPluginDescription)
    simp only [List.length_nil] at h3
    omega

/-- C4: the collector receives diagnostics in the order builtin before user
before development, within one source in that source's input order (appending
descriptors to a source only appends diagnostics); every development descriptor
produces one informational diagnostic before any overwrite warning for it; and
a builtin list alone, even with duplicate ids, produces no diagnostic while its
later entry silently wins the lookup. -/
theorem C4_merge_diagnostic_order (b u d : List IPluginDescription) :
    ((scanPluginsMerge b [] []).2 = [] ∧
      ∀ i : String, mapLookup (scanPluginsMerge b [] []).1 i =
        b.reverse.find? (fun p => p.id == i)) ∧
    (scanPluginsMerge b u d).2 =
      (scanPluginsMerge b u []).2 ++
        (d.foldl devStep ((scanPluginsMerge b u []).1, [])).2 ∧
    (∀ u₂ : List IPluginDescription, (scanPluginsMerge b (u ++ u₂) []).2 =
      (scanPluginsMerge b u []).2 ++
        (u₂.foldl userStep ((scanPluginsMerge b u []).1, [])).2) ∧
    (∀ d₂ : List IPluginDescription, (scanPluginsMerge b u (d ++ d₂)).2 =
      (scanPluginsMerge b u d).2 ++
        (d₂.foldl devStep ((scanPluginsMerge b u d).1, [])).2) ∧
    (∀ (m : List IPluginDescription) (msgs : List IMessage) (p : IPluginDescription),
      devStep (m, msgs) p =
        (insertPlugin m p,
          msgs ++ ⟨Severity.info, "", "Loading development extension at " ++ p.extensionFolderPath⟩ ::
            (if hasKey m p.id then [⟨Severity.warning, "", overwriteMessage m p⟩] else []))) := by
  refine ⟨⟨rfl, ?_⟩, ?_, ?_, ?_, fun m msgs p => devStep_eq m msgs p⟩
  · intro i
    rw [scanPluginsMerge_fst, List.foldl_nil, List.foldl_nil,
      lookup_foldl_insertPlugin, mapLookup_nil, Option.or_none]
  · rw [scanPluginsMerge_snd b u d, scanPluginsMerge_snd b u [], scanPluginsMerge_fst b u []]
    simp
  · intro u₂
    rw [scanPluginsMerge_snd b (u ++ u₂) [], List.foldl_append, snd_foldl_userStep_pair,
      fst_foldl_userStep, scanPluginsMerge_snd b u [], scanPluginsMerge_fst b u []]
    simp
  · intro d₂
    rw [scanPluginsMerge_snd b u (d ++ d₂), List.foldl_append, snd_foldl_devStep_pair,
      fst_foldl_devStep_pair, scanPluginsMerge_snd b u d, scanPluginsMerge_fst b u d]
    simp

theorem star_mem_dispatched (fs : String → Bool) (activate : Activate)
    (workspace : Option Workspace) (registry : List IPluginDescription) :
    "*" ∈ (handleEagerPlugins fs activate workspace registry).dispatched :=
  List.mem_cons_self _ _

/-- C1 as stated is refuted by the code: the rejection handler in readPlugins
wraps the joined promise of all three scans, so one rejected scan replaces the
whole merged result with the empty list. Here the builtin scan resolved with a
descriptor and the user scan rejected, yet the registry does not retain the
builtin descriptor. -/
theorem C1_counterexample :
    readPlugins (Except.ok [⟨"A", "/builtin/A", none⟩]) (Except.error "user scan failed")
        (Except.ok []) =
      ([], [⟨Severity.error, "", "user scan failed"⟩]) ∧
    (⟨"A", "/builtin/A", none⟩ : IPluginDescription) ∉
      (readPlugins (Except.ok [⟨"A", "/builtin/A", none⟩]) (Except.error "user scan failed")
        (Except.ok [])).1 := by
  constructor
  · rfl
  · decide

/-- C1 amended: if any of the three scans rejects, the empty list is substituted
for the entire merged result (descriptors of the successful sources are dropped
as well), exactly one error diagnostic is recorded, and startup is not aborted:
the eager-activation phase still runs and dispatches the universal event. -/
theorem C1_scan_failure_degrades (b u d : ScanResult)
    (h : (∃ e, b = Except.error e) ∨ (∃ e, u = Except.error e) ∨ (∃ e, d = Except.error e)) :
    (readPlugins b u d).1 = [] ∧
    ((readPlugins b u d).2).map (fun msg => msg.severity) = [Severity.error] ∧
    ∀ (fs : String → Bool) (activate : Activate) (workspace : Option Workspace),
      "*" ∈ (start b u d fs activate workspace).2.dispatched := by
  have hstar : ∀ (fs : String → Bool) (activate : Activate) (workspace : Option Workspace),
      "*" ∈ (start b u d fs activate workspace).2.dispatched :=
    fun fs activate workspace => star_mem_dispatched fs activate workspace (readPlugins b u d).1
  rcases h with ⟨e, rfl⟩ | ⟨e, rfl⟩ | ⟨e, rfl⟩
  · exact ⟨rfl, rfl, hstar⟩
  · cases b with
    | error e2 => exact ⟨rfl, rfl, hstar⟩
    | ok bs => exact ⟨rfl, rfl, hstar⟩
  · cases b with
    | error e2 => exact ⟨rfl, rfl, hstar⟩
    | ok bs =>
      cases u with
      | error e2 => exact ⟨rfl, rfl, hstar⟩
      | ok us => exact ⟨rfl, rfl, hstar⟩

/-- Witness for C1 amended: the development scan rejected while the other two
resolved; the registry is empty, one error diagnostic is recorded, and the
universal event is still dispatched. -/
theorem C1_scan_failure_degrades_witness :
    (readPlugins (Except.ok [⟨"B", "/builtin/B", none⟩]) (Except.ok [])
      (Except.error "dev scan rejected")).1 = [] ∧
    ((readPlugins (Except.ok [⟨"B", "/builtin/B", none⟩]) (Except.ok [])
      (Except.error "dev scan rejected")).2).map (fun msg => msg.severity) = [Severity.error] ∧
    "*" ∈ (start (Except.ok [⟨"B", "/builtin/B", none⟩]) (Except.ok [])
      (Except.error "dev scan rejected") (fun _ => false) (fun _ => Except.ok ())
      none).2.dispatched := by
  have h := C1_scan_failure_degrades (Except.ok [⟨"B", "/builtin/B", none⟩]) (Except.ok [])
    (Except.error "dev scan rejected") (Or.inr (Or.inr ⟨"dev scan rejected", rfl⟩))
  exact ⟨h.1, h.2.1, h.2.2 (fun _ => false) (fun _ => Except.ok ()) none⟩

theorem event_decompose (e : String) (h : isWorkspaceContainsEvent e = true) :
    e = "workspaceContains:" ++ eventFileName e := by
  unfold isWorkspaceContainsEvent at h
  rw [List.isPrefixOf_iff_prefix] at h
  rcases h with ⟨t, ht⟩
  apply String.ext
  rw [String.data_append]
  unfold eventFileName
  rw [String.data_drop, ← ht]
  congr 1

theorem event_recompose (n : String) :
    isWorkspaceContainsEvent ("workspaceContains:" ++ n) = true ∧
    eventFileName ("workspaceContains:" ++ n) = n := by
  constructor
  · unfold isWorkspaceContainsEvent
    rw [List.isPrefixOf_iff_prefix, String.data_append]
    exact List.prefix_append _ _
  · unfold eventFileName
    apply String.ext
    rw [String.data_drop, String.data_append,
      show "workspaceContains:".length = "workspaceContains:".data.length from rfl,
      List.drop_left]

theorem contains_iff_mem (acc : List String) (n : String) :
    acc.contains n = true ↔ n ∈ acc := by
  rw [List.contains_eq_any_beq, List.any_eq_true]
  constructor
  · rintro ⟨y, hy, hby⟩
    rw [beq_iff_eq] at hby
    rwa [hby]
  · intro hmem
    exact ⟨n, hmem, by simp⟩

theorem mem_setInsert (acc : List String) (n x : String) :
    x ∈ setInsert acc n ↔ x ∈ acc ∨ x = n := by
  unfold setInsert
  by_cases h : acc.contains n = true
  · rw [if_pos h]
    have hmem : n ∈ acc := (contains_iff_mem acc n).mp h
    constructor
    · exact Or.inl
    · rintro (hx | rfl)
      · exact hx
      · exact hmem
  · rw [if_neg h]
    simp

theorem nodup_setInsert (acc : List String) (n : String) (h : acc.Nodup) :
    (setInsert acc n).Nodup := by
  unfold setInsert
  by_cases hc : acc.contains n = true
  · rwa [if_pos hc]
  · rw [if_neg hc]
    have hn : n ∉ acc := fun hmem => hc ((contains_iff_mem acc n).mpr hmem)
    simp [List.nodup_append, h, hn]

theorem mem_collectEvents (evs : List String) (acc : List String) (x : String) :
    x ∈ evs.foldl
        (fun a e => if isWorkspaceContainsEvent e then setInsert a (eventFileName e) else a) acc ↔
      x ∈ acc ∨ ∃ e ∈ evs, isWorkspaceContainsEvent e = true ∧ eventFileName e = x := by
  induction evs generalizing acc with
  | nil => simp
  | cons e rest ih =>
    rw [List.foldl_cons]
    by_cases he : isWorkspaceContainsEvent e = true
    · rw [if_pos he, ih, mem_setInsert]
      constructor
      · rintro ((hx | rfl) | ⟨e2, he2, h1, h2⟩)
        · exact Or.inl hx
        · exact Or.inr ⟨e, List.mem_cons_self e rest, he, rfl⟩
        · exact Or.inr ⟨e2, List.mem_cons_of_mem _ he2, h1, h2⟩
      · rintro (hx | ⟨e2, he2, h1, h2⟩)
        · exact Or.inl (Or.inl hx)
        · rcases List.mem_cons.mp he2 with rfl | hm
          · exact Or.inl (Or.inr h2.symm)
          · exact Or.inr ⟨e2, hm, h1, h2⟩
    · rw [if_neg he, ih]
      constructor
      · rintro (hx | ⟨e2, he2, h1, h2⟩)
        · exact Or.inl hx
        · exact Or.inr ⟨e2, List.mem_cons_of_mem _ he2, h1, h2⟩
      · rintro (hx | ⟨e2, he2, h1, h2⟩)
        · exact Or.inl hx
        · rcases List.mem_cons.mp he2 with rfl | hm
          · exact absurd h1 he
          · exact Or.inr ⟨e2, hm, h1, h2⟩

theorem nodup_collectEvents (evs : List String) (acc : List String) (h : acc.Nodup) :
    (evs.foldl
      (fun a e => if isWorkspaceContainsEvent e then setInsert a (eventFileName e) else a)
      acc).Nodup := by
  induction evs generalizing acc with
  | nil => exact h
  | cons e rest ih =>
    rw [List.foldl_cons]
    by_cases he : isWorkspaceContainsEvent e = true
    · rw [if_pos he]
      exact ih _ (nodup_setInsert _ _ h)
    · rw [if_neg he]
      exact ih _ h

theorem mem_collectFromDescription (desc : IPluginDescription) (acc : List String) (x : String) :
    x ∈ collectFromDescription acc desc ↔
      x ∈ acc ∨ ∃ evs, desc.activationEvents = some evs ∧
        ∃ e ∈ evs, isWorkspaceContainsEvent e = true ∧ eventFileName e = x := by
  unfold collectFromDescription
  cases hae : desc.activationEvents with
  | none => simp
  | some evs =>
    rw [mem_collectEvents]
    constructor
    · rintro (hx | hev)
      · exact Or.inl hx
      · exact Or.inr ⟨evs, rfl, hev⟩
    · rintro (hx | ⟨evs2, heq, hev⟩)
      · exact Or.inl hx
      · rw [Option.some.injEq] at heq
        subst heq
        exact Or.inr hev

theorem nodup_collectFromDescription (desc : IPluginDescription) (acc : List String)
    (h : acc.Nodup) : (collectFromDescription acc desc).Nodup := by
  unfold collectFromDescription
  cases desc.activationEvents with
  | none => exact h
  | some evs => exact nodup_collectEvents evs acc h

theorem mem_foldl_collect (registry : List IPluginDescription) (acc : List String) (x : String) :
    x ∈ registry.foldl collectFromDescription acc ↔
      x ∈ acc ∨ ∃ desc ∈ registry, ∃ evs, desc.activationEvents = some evs ∧
        ∃ e ∈ evs, isWorkspaceContainsEvent e = true ∧ eventFileName e = x := by
  induction registry generalizing acc with
  | nil => simp
  | cons desc rest ih =>
    rw [List.foldl_cons, ih, mem_collectFromDescription]
    constructor
    · rintro ((hx | hev) | ⟨d2, hd2, hrest⟩)
      · exact Or.inl hx
      · exact Or.inr ⟨desc, List.mem_cons_self desc rest, hev⟩
      · exact Or.inr ⟨d2, List.mem_cons_of_mem _ hd2, hrest⟩
    · rintro (hx | ⟨d2, hd2, hrest⟩)
      · exact Or.inl (Or.inl hx)
      · rcases List.mem_cons.mp hd2 with rfl | hm
        · exact Or.inl (Or.inr hrest)
        · exact Or.inr ⟨d2, hm, hrest⟩

theorem mem_collectDesiredFiles (registry : List IPluginDescription) (x : String) :
    x ∈ collectDesiredFiles registry ↔
      ∃ desc ∈ registry, ∃ evs, desc.activationEvents = some evs ∧
        ∃ e ∈ evs, isWorkspaceContainsEvent e = true ∧ eventFileName e = x := by
  unfold collectDesiredFiles
  rw [mem_foldl_collect]
  simp

theorem nodup_collectDesiredFiles (registry : List IPluginDescription) :
    (collectDesiredFiles registry).Nodup := by
  unfold collectDesiredFiles
  have haux : ∀ (rs : List IPluginDescription) (acc : List String), acc.Nodup →
      (rs.foldl collectFromDescription acc).Nodup := by
    intro rs
    induction rs with
    | nil => exact fun acc h => h
    | cons desc rest ih =>
      intro acc h
      rw [List.foldl_cons]
      exact ih _ (nodup_collectFromDescription desc acc h)
  exact haux registry [] List.nodup_nil

theorem mem_collectDesiredFiles_iff (registry : List IPluginDescription) (n : String) :
    n ∈ collectDesiredFiles registry ↔
      ∃ desc ∈ registry, ∃ evs, desc.activationEvents = some evs ∧
        ("workspaceContains:" ++ n) ∈ evs := by
  rw [mem_collectDesiredFiles]
  constructor
  · rintro ⟨desc, hd, evs, hae, e, he, h1, h2⟩
    refine ⟨desc, hd, evs, hae, ?_⟩
    have hdec := event_decompose e h1
    rw [h2] at hdec
    rwa [← hdec]
  · rintro ⟨desc, hd, evs, hae, he⟩
    exact ⟨desc, hd, evs, hae, "workspaceContains:" ++ n, he,
      (event_recompose n).1, (event_recompose n).2⟩

theorem handleWC_probed (fs : String → Bool) (activate : Activate) (root : String)
    (registry : List IPluginDescription) :
    (handleWorkspaceContainsEagerPlugins fs activate (some ⟨some root⟩) registry).probedPaths =
      (collectDesiredFiles registry).map (fun n => joinPath root n) := rfl

theorem dispatch_filterMap_eq (fs : String → Bool) (root : String) (names : List String) :
    (names.map (fun fileName => if fs (joinPath root fileName) then some fileName else none)).filterMap
      (fun r => match r with
        | none => none
        | some s => if s == "" then none else some ("workspaceContains:" ++ s)) =
    (names.filter (fun n => !(n == "") && fs (joinPath root n))).map
      (fun n => "workspaceContains:" ++ n) := by
  rw [List.filterMap_map]
  induction names with
  | nil => rfl
  | cons n rest ih =>
    rw [List.filterMap_cons, List.filter_cons]
    by_cases hf : fs (joinPath root n) = true
    · by_cases he : n = ""
      · subst he
        simp [Function.comp, hf] at ih ⊢
        exact ih
      · have hne : (n == "") = false := by simp [he]
        simp [Function.comp, hf, hne] at ih ⊢
        exact ih
    · simp only [Bool.not_eq_true] at hf
      simp [Function.comp, hf] at ih ⊢
      exact ih

theorem handleWC_dispatched (fs : String → Bool) (activate : Activate) (root : String)
    (registry : List IPluginDescription) :
    (handleWorkspaceContainsEagerPlugins fs activate (some ⟨some root⟩) registry).dispatched =
      ((collectDesiredFiles registry).filter
        (fun n => !(n == "") && fs (joinPath root n))).map
        (fun n => "workspaceContains:" ++ n) :=
  dispatch_filterMap_eq fs root (collectDesiredFiles registry)

theorem handleWC_logged (fs : String → Bool) (activate : Activate) (root : String)
    (registry : List IPluginDescription) :
    (handleWorkspaceContainsEagerPlugins fs activate (some ⟨some root⟩) registry).loggedErrors =
      ((handleWorkspaceContainsEagerPlugins fs activate (some ⟨some root⟩) registry).dispatched).filterMap
        (fun e => match activate e with
          | Except.ok _ => none
          | Except.error err => some err) := rfl

theorem handleWC_noRoot (fs : String → Bool) (activate : Activate)
    (workspace : Option Workspace) (registry : List IPluginDescription)
    (h : workspace = none ∨ ∃ w, workspace = some w ∧ w.resource = none) :
    handleWorkspaceContainsEagerPlugins fs activate workspace registry = ⟨[], [], []⟩ := by
  rcases h with rfl | ⟨w, rfl, hres⟩
  · rfl
  · cases w with
    | mk res =>
      cases res with
      | none => rfl
      | some r => simp at hres

theorem handleWC_activate_independent (fs : String → Bool) (a₁ a₂ : Activate)
    (workspace : Option Workspace) (registry : List IPluginDescription) :
    (handleWorkspaceContainsEagerPlugins fs a₁ workspace registry).dispatched =
      (handleWorkspaceContainsEagerPlugins fs a₂ workspace registry).dispatched ∧
    (handleWorkspaceContainsEagerPlugins fs a₁ workspace registry).probedPaths =
      (handleWorkspaceContainsEagerPlugins fs a₂ workspace registry).probedPaths := by
  cases workspace with
  | none => exact ⟨rfl, rfl⟩
  | some w =>
    cases w with
    | mk res =>
      cases res with
      | none => exact ⟨rfl, rfl⟩
      | some root => exact ⟨rfl, rfl⟩

theorem wc_append_inj (n₁ n₂ : String)
    (h : "workspaceContains:" ++ n₁ = "workspaceContains:" ++ n₂) : n₁ = n₂ := by
  have hd := congrArg String.data h
  rw [String.data_append, String.data_append] at hd
  exact String.ext (List.append_cancel_left hd)

theorem wc_eq_append_empty : ("workspaceContains:" : String) = "workspaceContains:" ++ "" := by
  apply String.ext
  rw [String.data_append, List.append_nil]

theorem bare_event_not_dispatched (fs : String → Bool) (activate : Activate) (root : String)
    (registry : List IPluginDescription) :
    "workspaceContains:" ∉
      (handleWorkspaceContainsEagerPlugins fs activate (some ⟨some root⟩) registry).dispatched := by
  rw [handleWC_dispatched]
  intro hmem
  rcases List.mem_map.mp hmem with ⟨n, hn, heq⟩
  have hn2 := List.mem_filter.mp hn
  have hempty : n = "" := wc_append_inj n "" (heq.trans wc_eq_append_empty)
  subst hempty
  simp at hn2

/-- C5: with a workspace root present, the trigger resolver issues the probes by
joining the root with each collected name; the collected names are pairwise
distinct, and a name is collected exactly when some registered descriptor
declares the activation event formed by the literal workspaceContains prefix
followed by that name — so each distinct name is probed exactly once even when
several descriptors declare it. -/
theorem C5_probe_dedup (fs : String → Bool) (activate : Activate) (root : String)
    (registry : List IPluginDescription) :
    (handleWorkspaceContainsEagerPlugins fs activate (some ⟨some root⟩) registry).probedPaths =
      (collectDesiredFiles registry).map (fun n => joinPath root n) ∧
    (collectDesiredFiles registry).Nodup ∧
    ∀ n : String, n ∈ collectDesiredFiles registry ↔
      ∃ desc ∈ registry, ∃ evs, desc.activationEvents = some evs ∧
        ("workspaceContains:" ++ n) ∈ evs :=
  ⟨rfl, nodup_collectDesiredFiles registry, fun n => mem_collectDesiredFiles_iff registry n⟩

/-- Witness for C5: two descriptors both declare a.json, one also declares an
unrelated language event; a.json is collected once, so one probe is issued
for it. -/
theorem C5_probe_dedup_witness :
    (handleWorkspaceContainsEagerPlugins (fun _ => true) (fun _ => Except.ok ())
      (some ⟨some "/ws"⟩)
      [⟨"x", "/px", some ["workspaceContains:a.json", "onLanguage:go"]⟩,
       ⟨"y", "/py", some ["workspaceContains:a.json"]⟩]).probedPaths = ["/ws/a.json"] := by
  have h := C5_probe_dedup (fun _ => true) (fun _ => Except.ok ()) "/ws"
    [⟨"x", "/px", some ["workspaceContains:a.json", "onLanguage:go"]⟩,
     ⟨"y", "/py", some ["workspaceContains:a.json"]⟩]
  rw [h.1]
  decide

/-- C6 as universally stated fails at the empty name: with a workspace root, a
descriptor declaring the bare workspaceContains event and a filesystem on which
every path exists, the empty name is a distinct declared name whose probe
succeeds, yet nothing is dispatched. -/
theorem C6_counterexample :
    "" ∈ collectDesiredFiles [⟨"e1", "/p1", some ["workspaceContains:"]⟩] ∧
    (handleWorkspaceContainsEagerPlugins (fun _ => true) (fun _ => Except.ok ())
      (some ⟨some "/ws"⟩) [⟨"e1", "/p1", some ["workspaceContains:"]⟩]).probedPaths = ["/ws"] ∧
    (handleWorkspaceContainsEagerPlugins (fun _ => true) (fun _ => Except.ok ())
      (some ⟨some "/ws"⟩) [⟨"e1", "/p1", some ["workspaceContains:"]⟩]).dispatched = [] := by
  refine ⟨by decide, by decide, by decide⟩

/-- C6 amended: with a workspace root present, the dispatched events are exactly
one workspaceContains event for each distinct declared nonempty name whose probe
succeeded: a nonempty name is dispatched iff it is collected and its probe
succeeded, each such event is dispatched exactly once, a name whose probe failed
is never dispatched, and the empty name is never dispatched even when its probe
succeeds (its falsy result is skipped). -/
theorem C6_dispatch_iff_probe (fs : String → Bool) (activate : Activate) (root : String)
    (registry : List IPluginDescription) :
    (handleWorkspaceContainsEagerPlugins fs activate (some ⟨some root⟩) registry).dispatched =
      ((collectDesiredFiles registry).filter
        (fun n => !(n == "") && fs (joinPath root n))).map
        (fun n => "workspaceContains:" ++ n) ∧
    (∀ n : String, n ≠ "" →
      (("workspaceContains:" ++ n) ∈
          (handleWorkspaceContainsEagerPlugins fs activate (some ⟨some root⟩) registry).dispatched ↔
        n ∈ collectDesiredFiles registry ∧ fs (joinPath root n) = true)) ∧
    (∀ n : String, fs (joinPath root n) = false →
      ("workspaceContains:" ++ n) ∉
        (handleWorkspaceContainsEagerPlugins fs activate (some ⟨some root⟩) registry).dispatched) ∧
    (∀ n : String, n ≠ "" → n ∈ collectDesiredFiles registry → fs (joinPath root n) = true →
      ((handleWorkspaceContainsEagerPlugins fs activate (some ⟨some root⟩) registry).dispatched).count
        ("workspaceContains:" ++ n) = 1) ∧
    "workspaceContains:" ∉
      (handleWorkspaceContainsEagerPlugins fs activate (some ⟨some root⟩) registry).dispatched := by
  refine ⟨handleWC_dispatched fs activate root registry, ?_, ?_, ?_,
    bare_event_not_dispatched fs activate root registry⟩
  · intro n hne
    rw [handleWC_dispatched, List.mem_map]
    constructor
    · rintro ⟨n2, hn2, heq⟩
      have : n2 = n := wc_append_inj n2 n heq
      subst this
      have hmem := List.mem_filter.mp hn2
      refine ⟨hmem.1, ?_⟩
      have hcond := hmem.2
      simp only [Bool.and_eq_true] at hcond
      exact hcond.2
    · rintro ⟨hmem, hfs⟩
      refine ⟨n, List.mem_filter.mpr ⟨hmem, ?_⟩, rfl⟩
      have hb : (n == "") = false := by simp [hne]
      simp [hb, hfs]
  · intro n hfs hmem
    rw [handleWC_dispatched, List.mem_map] at hmem
    rcases hmem with ⟨n2, hn2, heq⟩
    have : n2 = n := wc_append_inj n2 n heq
    subst this
    have hcond := (List.mem_filter.mp hn2).2
    simp only [Bool.and_eq_true] at hcond
    rw [hfs] at hcond
    exact absurd hcond.2 (by simp)
  · intro n hne hmem hfs
    rw [handleWC_dispatched]
    have hnodup : (((collectDesiredFiles registry).filter
        (fun n => !(n == "") && fs (joinPath root n))).map
        (fun n => "workspaceContains:" ++ n)).Nodup :=
      List.Nodup.map (fun a b hab => wc_append_inj a b hab)
        ((nodup_collectDesiredFiles registry).filter _)
    apply List.count_eq_one_of_mem hnodup
    apply List.mem_map.mpr
    refine ⟨n, List.mem_filter.mpr ⟨hmem, ?_⟩, rfl⟩
    have hb : (n == "") = false := by simp [hne]
    simp [hb, hfs]

/-- Witness for C6 amended: the workspace root holds pkg.json but not Cargo.toml;
only the pkg.json event is dispatched. -/
theorem C6_dispatch_iff_probe_witness :
    (handleWorkspaceContainsEagerPlugins (fun p => p == "/ws/pkg.json")
      (fun _ => Except.ok ()) (some ⟨some "/ws"⟩)
      [⟨"x", "/px", some ["workspaceContains:pkg.json"]⟩,
       ⟨"y", "/py", some ["workspaceContains:Cargo.toml"]⟩]).dispatched =
      ["workspaceContains:pkg.json"] := by
  have h := C6_dispatch_iff_probe (fun p => p == "/ws/pkg.json") (fun _ => Except.ok ())
    "/ws" [⟨"x", "/px", some ["workspaceContains:pkg.json"]⟩,
      ⟨"y", "/py", some ["workspaceContains:Cargo.toml"]⟩]
  rw [h.1]
  decide

/-- C7 as stated is refuted: a descriptor declaring the bare workspaceContains
event is probed at the workspace root itself, every path exists on this
filesystem so the probe succeeds, yet the bare event is not dispatched. -/
theorem C7_counterexample :
    "" ∈ collectDesiredFiles [⟨"dev.ext", "/dev/ext", some ["workspaceContains:"]⟩] ∧
    (handleWorkspaceContainsEagerPlugins (fun _ => true) (fun _ => Except.ok ())
      (some ⟨some "/workspace"⟩)
      [⟨"dev.ext", "/dev/ext", some ["workspaceContains:"]⟩]).probedPaths = ["/workspace"] ∧
    "workspaceContains:" ∉
      (handleWorkspaceContainsEagerPlugins (fun _ => true) (fun _ => Except.ok ())
        (some ⟨some "/workspace"⟩)
        [⟨"dev.ext", "/dev/ext", some ["workspaceContains:"]⟩]).dispatched := by
  refine ⟨by decide, by decide, by decide⟩

/-- C7 amended: a descriptor declaring the bare workspaceContains event still
contributes the empty name, which is probed as the workspace root itself; when
the root exists the probe succeeds, but the dispatch loop skips the falsy empty
result, so the bare event is never dispatched. -/
theorem C7_empty_name (fs : String → Bool) (activate : Activate) (root : String)
    (registry : List IPluginDescription)
    (hdecl : ∃ desc ∈ registry, ∃ evs, desc.activationEvents = some evs ∧
      ("workspaceContains:" : String) ∈ evs)
    (hroot : fs root = true) :
    "" ∈ collectDesiredFiles registry ∧
    root ∈ (handleWorkspaceContainsEagerPlugins fs activate (some ⟨some root⟩) registry).probedPaths ∧
    fs (joinPath root "") = true ∧
    "workspaceContains:" ∉
      (handleWorkspaceContainsEagerPlugins fs activate (some ⟨some root⟩) registry).dispatched := by
  have hmem : "" ∈ collectDesiredFiles registry := by
    rw [mem_collectDesiredFiles_iff]
    rcases hdecl with ⟨desc, hd, evs, hae, he⟩
    exact ⟨desc, hd, evs, hae, wc_eq_append_empty ▸ he⟩
  refine ⟨hmem, ?_, hroot, bare_event_not_dispatched fs activate root registry⟩
  rw [handleWC_probed]
  exact List.mem_map.mpr ⟨"", hmem, rfl⟩

/-- Witness for C7 amended at a concrete registry and filesystem. -/
theorem C7_empty_name_witness :
    "" ∈ collectDesiredFiles [⟨"z", "/pz", some ["workspaceContains:"]⟩] ∧
    "/root" ∈ (handleWorkspaceContainsEagerPlugins (fun p => p == "/root")
      (fun _ => Except.ok ()) (some ⟨some "/root"⟩)
      [⟨"z", "/pz", some ["workspaceContains:"]⟩]).probedPaths ∧
    (fun p => p == "/root") (joinPath "/root" "") = true ∧
    "workspaceContains:" ∉
      (handleWorkspaceContainsEagerPlugins (fun p => p == "/root") (fun _ => Except.ok ())
        (some ⟨some "/root"⟩) [⟨"z", "/pz", some ["workspaceContains:"]⟩]).dispatched :=
  C7_empty_name (fun p => p == "/root") (fun _ => Except.ok ()) "/root"
    [⟨"z", "/pz", some ["workspaceContains:"]⟩]
    ⟨⟨"z", "/pz", some ["workspaceContains:"]⟩, by decide, ["workspaceContains:"], rfl,
      by decide⟩
    (by decide)

/-- C8: with no workspace root present — no workspace open, or a workspace
without a resource — only the universal activation event is dispatched, no
filesystem probe occurs, and no workspaceContains event is dispatched. -/
theorem C8_no_workspace (fs : String → Bool) (activate : Activate)
    (workspace : Option Workspace) (registry : List IPluginDescription)
    (h : workspace = none ∨ ∃ w, workspace = some w ∧ w.resource = none) :
    (handleEagerPlugins fs activate workspace registry).dispatched = ["*"] ∧
    (handleEagerPlugins fs activate workspace registry).probedPaths = [] ∧
    ∀ e ∈ (handleEagerPlugins fs activate workspace registry).dispatched,
      isWorkspaceContainsEvent e = false := by
  have hwc := handleWC_noRoot fs activate workspace registry h
  have hd : (handleEagerPlugins fs activate workspace registry).dispatched = ["*"] := by
    show "*" :: (handleWorkspaceContainsEagerPlugins fs activate workspace registry).dispatched = _
    rw [hwc]
  refine ⟨hd, ?_, ?_⟩
  · show (handleWorkspaceContainsEagerPlugins fs activate workspace registry).probedPaths = []
    rw [hwc]
  · intro e he
    rw [hd] at he
    have : e = "*" := List.mem_singleton.mp he
    subst this
    decide

/-- Witness for C8 with no workspace open and a descriptor that does declare a
workspaceContains trigger. -/
theorem C8_no_workspace_witness :
    (handleEagerPlugins (fun _ => true) (fun _ => Except.ok ()) none
      [⟨"x", "/px", some ["workspaceContains:pkg.json"]⟩]).dispatched = ["*"] ∧
    (handleEagerPlugins (fun _ => true) (fun _ => Except.ok ()) none
      [⟨"x", "/px", some ["workspaceContains:pkg.json"]⟩]).probedPaths = [] := by
  have h := C8_no_workspace (fun _ => true) (fun _ => Except.ok ()) none
    [⟨"x", "/px", some ["workspaceContains:pkg.json"]⟩] (Or.inl rfl)
  exact ⟨h.1, h.2.1⟩

/-- C9: a rejection of a single activateByEvent dispatch, including the universal
event, is caught: the rejection reason is routed to the console log, and the
dispatched events and probed paths are identical to those under any other
activation behaviour, so no dispatch is prevented and no failure propagates out
of the eager-activation phase. -/
theorem C9_dispatch_isolation (fs : String → Bool) (a₁ a₂ : Activate)
    (workspace : Option Workspace) (registry : List IPluginDescription)
    (e : String) (err : String)
    (he : e ∈ (handleEagerPlugins fs a₁ workspace registry).dispatched)
    (herr : a₁ e = Except.error err) :
    (handleEagerPlugins fs a₁ workspace registry).dispatched =
      (handleEagerPlugins fs a₂ workspace registry).dispatched ∧
    (handleEagerPlugins fs a₁ workspace registry).probedPaths =
      (handleEagerPlugins fs a₂ workspace registry).probedPaths ∧
    err ∈ (handleEagerPlugins fs a₁ workspace registry).loggedErrors := by
  refine ⟨?_, (handleWC_activate_independent fs a₁ a₂ workspace registry).2, ?_⟩
  · show "*" :: _ = "*" :: _
    rw [(handleWC_activate_independent fs a₁ a₂ workspace registry).1]
  · rcases List.mem_cons.mp he with rfl | hrest
    · show err ∈ (match a₁ "*" with
        | Except.ok _ => ([] : List String)
        | Except.error err2 => [err2]) ++ _
      rw [herr]
      exact List.mem_append_left _ (List.mem_singleton.mpr rfl)
    · have hlog : err ∈
          (handleWorkspaceContainsEagerPlugins fs a₁ workspace registry).loggedErrors := by
        cases workspace with
        | none =>
          rw [handleWC_noRoot fs a₁ none registry (Or.inl rfl)] at hrest
          simp at hrest
        | some w =>
          cases w with
          | mk res =>
            cases res with
            | none =>
              rw [handleWC_noRoot fs a₁ (some ⟨none⟩) registry
                (Or.inr ⟨⟨none⟩, rfl, rfl⟩)] at hrest
              simp at hrest
            | some root =>
              rw [handleWC_logged]
              exact List.mem_filterMap.mpr ⟨e, hrest, by rw [herr]⟩
      exact List.mem_append_right _ hlog

/-- Witness for C9: the universal dispatch rejects; the rejection is logged and
the dispatched events match those of an activation that always resolves. -/
theorem C9_dispatch_isolation_witness :
    (handleEagerPlugins (fun _ => false) (fun _ => Except.error "activation boom") none
      []).dispatched =
      (handleEagerPlugins (fun _ => false) (fun _ => Except.ok ()) none []).dispatched ∧
    "activation boom" ∈ (handleEagerPlugins (fun _ => false)
      (fun _ => Except.error "activation boom") none []).loggedErrors := by
  have h := C9_dispatch_isolation (fun _ => false) (fun _ => Except.error "activation boom")
    (fun _ => Except.ok ()) none [] "*" "activation boom"
    (star_mem_dispatched _ _ _ _) rfl
  exact ⟨h.1, h.2.2⟩

/-- C10: after the module-load patch, calling the installed process.exit with any
argument leaves the exit state unchanged — the process never terminates — and
only appends the warning built from the constructed Error; the saved native exit
is invoked exactly by the exported exit function, which does set the exit
state. -/
theorem C10_process_exit_patched (code : Option Int) (s : ProcessState) :
    (patchedProcessExit code s).exited = s.exited ∧
    (patchedProcessExit code s).warnings =
      s.warnings ++ ["An extension called process.exit() and this was prevented."] ∧
    exit code s = nativeExit code s ∧
    (nativeExit code s).exited = some code :=
  ⟨rfl, rfl, rfl, rfl⟩

end PluginHostMain

